import Mathlib

/-!
# Verification of the linux-ftp-client transfer engine

Shallow embedding of the transfer engine of the `linux-ftp-client`
repository: the speed-limit registry (`SpeedLimitManager`), the stream
throttle (`SpeedLimiter`), the connection manager (`ConnectionManager` in
`src/main/preload.js`) and the transfer queue/scheduler (`TransferQueue`).

JavaScript numbers are modelled as `WithTop ℚ` (`⊤` plays `Infinity`; `NaN`
is not modelled).  JavaScript `Map`s keyed by strings are association lists
with `Map.set` insertion-order semantics.  The JS truthiness coercion
`x || Infinity` (which sends `undefined`, `null` and `0` to `Infinity`) is
modelled explicitly by `jsOrInfinity`.
-/

/-- A JavaScript number that is never `NaN`: a rational or `Infinity`. -/
abbrev JSNum := WithTop ℚ

/-- Transfer direction, the `type` argument of the speed-limit API
(`'upload'` or `'download'`). -/
inductive Direction where
  | upload
  | download
deriving DecidableEq, Repr

/-- The per-connection limit record `{upload?, download?}`: a JS object in
which either property may be absent (`undefined`). -/
structure ConnLimits where
  upload : Option JSNum := none
  download : Option JSNum := none
deriving DecidableEq, Repr

/-- Property read `limits[type]`; an absent property reads as `undefined`
(`none`). -/
def ConnLimits.get (l : ConnLimits) : Direction → Option JSNum
  | .upload => l.upload
  | .download => l.download

/-- Property write `limits[type] = v`. -/
def ConnLimits.set (l : ConnLimits) : Direction → JSNum → ConnLimits
  | .upload, v => { l with upload := some v }
  | .download, v => { l with download := some v }

/-- JS `x || Infinity` applied to a possibly-absent number: `undefined`
and `0` are falsy and give `Infinity`; any other number is returned. -/
def jsOrInfinity : Option JSNum → JSNum
  | none => ⊤
  | some v => if v = 0 then ⊤ else v

/-- `Map.set k v` on an association list: overwrite in place if the key is
present, append otherwise (JS `Map` preserves insertion order). -/
def mapSet (k : String) (v : ConnLimits) : List (String × ConnLimits) → List (String × ConnLimits)
  | [] => [(k, v)]
  | (k', v') :: rest => if k' = k then (k, v) :: rest else (k', v') :: mapSet k v rest

/-- `SpeedLimitManager` (src/unnamed/part_000): `limits` is a
`Map<connectionId, {upload?, download?}>`; `globalLimits` is an object that
is `undefined` until the first `setGlobalLimit` call. -/
structure SpeedLimitManager where
  limits : List (String × ConnLimits) := []
  globalLimits : Option ConnLimits := none
deriving DecidableEq, Repr

namespace SpeedLimitManager

/-- `setLimit(connectionId, type, bytesPerSecond)`: create an empty record
for the connection if absent, then assign the direction property. -/
def setLimit (m : SpeedLimitManager) (cid : String) (ty : Direction) (v : JSNum) :
    SpeedLimitManager :=
  match m.limits.lookup cid with
  | none => { m with limits := mapSet cid (ConnLimits.set {} ty v) m.limits }
  | some cur => { m with limits := mapSet cid (cur.set ty v) m.limits }

/-- `getLimit(connectionId, type)`: `Infinity` when the connection has no
record, otherwise `connectionLimits[type] || Infinity`. -/
def getLimit (m : SpeedLimitManager) (cid : String) (ty : Direction) : JSNum :=
  match m.limits.lookup cid with
  | none => ⊤
  | some cl => jsOrInfinity (cl.get ty)

/-- `removeConnection(connectionId)`: `this.limits.delete(connectionId)`. -/
def removeConnection (m : SpeedLimitManager) (cid : String) : SpeedLimitManager :=
  { m with limits := m.limits.filter (fun p => p.1 != cid) }

/-- `setGlobalLimit(type, bytesPerSecond)`:
`this.globalLimits = this.globalLimits || {}; this.globalLimits[type] = v`. -/
def setGlobalLimit (m : SpeedLimitManager) (ty : Direction) (v : JSNum) : SpeedLimitManager :=
  { m with globalLimits := some ((m.globalLimits.getD {}).set ty v) }

/-- `getEffectiveLimit(connectionId, type)`:
`Math.min(getLimit(cid, type), (globalLimits && globalLimits[type]) || Infinity)`. -/
def getEffectiveLimit (m : SpeedLimitManager) (cid : String) (ty : Direction) : JSNum :=
  let connectionLimit := m.getLimit cid ty
  let globalLimit := jsOrInfinity (m.globalLimits.bind (fun g => g.get ty))
  min connectionLimit globalLimit

end SpeedLimitManager

/-- Protocol variant recorded on a registered connection.  Note that
`connect` stores `type: 'ftp'` for both the `ftp` and the `ftps` protocol
strings, and `type: 'sftp'` for `sftp`. -/
inductive ConnType where
  | ftp
  | sftp
deriving DecidableEq, Repr

/-- An entry of `ConnectionManager.connections`: the transport handle is
opaque, only the id and protocol variant matter to the claims. -/
structure Connection where
  id : String
  type : ConnType
deriving DecidableEq, Repr

/-- `ConnectionManager` (src/src/main/preload.js): a `Map` of connections
plus one `SpeedLimitManager`. -/
structure ConnectionManager where
  connections : List (String × Connection) := []
  speedLimitManager : SpeedLimitManager := {}
deriving DecidableEq, Repr

/-- The successful outcome of an operation that delegates to the remote
transport: records which connection it ran against and its arguments. -/
inductive OpResult where
  | remoteOp (conn : Connection) (args : List String)
deriving DecidableEq, Repr

namespace ConnectionManager

/-- `disconnect(connectionId)`: throws `'Connection not found'` for an
unknown id, otherwise closes the transport (external effect) and deletes
the registry entry.  `speedLimitManager` is not touched. -/
def disconnect (cm : ConnectionManager) (cid : String) : Except String ConnectionManager :=
  match cm.connections.lookup cid with
  | none => .error "Connection not found"
  | some _ => .ok { cm with connections := cm.connections.filter (fun p => p.1 != cid) }

/-- `listDirectory(connectionId, remotePath)`: throws `'Connection not
found'` for an unknown id, otherwise performs the protocol listing. -/
def listDirectory (cm : ConnectionManager) (cid : String) (remotePath : String) :
    Except String OpResult :=
  match cm.connections.lookup cid with
  | none => .error "Connection not found"
  | some c => .ok (.remoteOp c [remotePath])

/-- `setSpeedLimit(connectionId, type, bytesPerSecond)`. -/
def setSpeedLimit (cm : ConnectionManager) (cid : String) (ty : Direction) (v : JSNum) :
    ConnectionManager :=
  { cm with speedLimitManager := cm.speedLimitManager.setLimit cid ty v }

/-- `setGlobalSpeedLimit(type, bytesPerSecond)`. -/
def setGlobalSpeedLimit (cm : ConnectionManager) (ty : Direction) (v : JSNum) :
    ConnectionManager :=
  { cm with speedLimitManager := cm.speedLimitManager.setGlobalLimit ty v }

/-- The record returned by `getSpeedLimits(connectionId)`. -/
structure SpeedLimits where
  upload : JSNum
  download : JSNum
  globalUpload : JSNum
  globalDownload : JSNum
deriving DecidableEq, Repr

/-- `getSpeedLimits(connectionId)` in preload.js: per-connection limits via
`getLimit`, global limits via `(globalLimits && globalLimits[type]) || Infinity`. -/
def getSpeedLimits (cm : ConnectionManager) (cid : String) : SpeedLimits :=
  { upload := cm.speedLimitManager.getLimit cid .upload
    download := cm.speedLimitManager.getLimit cid .download
    globalUpload := jsOrInfinity (cm.speedLimitManager.globalLimits.bind (fun g => g.get .upload))
    globalDownload := jsOrInfinity (cm.speedLimitManager.globalLimits.bind (fun g => g.get .download)) }

/-- Select the per-connection field of a `getSpeedLimits` result. -/
def SpeedLimits.perConn (r : SpeedLimits) : Direction → JSNum
  | .upload => r.upload
  | .download => r.download

/-- Select the global field of a `getSpeedLimits` result. -/
def SpeedLimits.global (r : SpeedLimits) : Direction → JSNum
  | .upload => r.globalUpload
  | .download => r.globalDownload

end ConnectionManager

/-! ## The stream throttle (`SpeedLimiter`, src/unnamed/part_000)

`SpeedLimiter` extends `Transform`; `_transform` either pushes the chunk at
once or schedules the push after a `setTimeout` delay.  The embedding
returns the delay in milliseconds (0 for an immediate push) together with
the updated limiter state.  The `lastCheck` field of the source is written
once in the constructor and never read, so it is omitted. -/

/-- State of one `SpeedLimiter` instance.  Times are in milliseconds
(`Date.now()`), byte counts are exact. -/
structure SpeedLimiter where
  maxBytesPerSecond : JSNum
  chunkSize : ℚ
  startTime : ℚ
  totalBytes : ℚ
deriving DecidableEq, Repr

/-- The `SpeedLimiter` constructor:
`maxBytesPerSecond = options.maxBytesPerSecond || Infinity`,
`chunkSize = options.chunkSize || 16384`, `startTime = Date.now()`,
`totalBytes = 0`. -/
def SpeedLimiter.create (optMax : Option JSNum) (optChunk : Option ℚ) (now : ℚ) :
    SpeedLimiter :=
  { maxBytesPerSecond := jsOrInfinity optMax
    chunkSize := match optChunk with
      | none => 16384
      | some c => if c = 0 then 16384 else c
    startTime := now
    totalBytes := 0 }

/-- `SpeedLimiter._transform(chunk, encoding, callback)`: with no cap the
chunk passes straight through with no bookkeeping; otherwise the elapsed
budget `expectedBytes = elapsedSeconds * cap` decides between an immediate
push and a `setTimeout` of `excess / cap` seconds (returned here in
milliseconds); in both capped branches `totalBytes` grows by the chunk
length. -/
def SpeedLimiter.transform (s : SpeedLimiter) (chunkLen now : ℚ) : ℚ × SpeedLimiter :=
  if h : s.maxBytesPerSecond = ⊤ then
    (0, s)
  else
    let cap := s.maxBytesPerSecond.untop h
    let elapsed := (now - s.startTime) / 1000
    let expectedBytes := elapsed * cap
    if s.totalBytes + chunkLen ≤ expectedBytes then
      (0, { s with totalBytes := s.totalBytes + chunkLen })
    else
      let excessBytes := (s.totalBytes + chunkLen) - expectedBytes
      let waitTime := excessBytes / cap * 1000
      (waitTime, { s with totalBytes := s.totalBytes + chunkLen })

/-! ## The SFTP `step` callbacks of `downloadFile` / `uploadFile`
(src/src/main/preload.js)

`fastGet` / `fastPut` are passed an options object whose `step` function
runs once per chunk.  When the elapsed-budget check decides to throttle,
the step returns a delay promise and skips the progress report for that
chunk; otherwise it reports progress and advances `lastTime` /
`lastTransferred`.  For FTP/FTPS connections `downloadFile` / `uploadFile`
instead issue a single `downloadTo` / `uploadFrom` call with no step
callback at all. -/

/-- `Math.round`: round half away from zero is half-up for the
non-negative arguments that arise here; modelled as half-up. -/
def jsRound (q : ℚ) : ℤ := ⌊q + 1 / 2⌋

/-- JS `speedLimit === Infinity ? null : speedLimit`. -/
def jsNullable (x : JSNum) : Option ℚ :=
  WithTop.recTopCoe none (fun a => some a) x

/-- The object passed to the renderer's progress callback:
`{percent, transferred, total, speed, speedLimit}`. -/
structure ProgressReport where
  percent : ℤ
  transferred : ℚ
  total : ℚ
  speed : ℚ
  speedLimit : Option ℚ
deriving DecidableEq, Repr

/-- The mutable closure state of one transfer's `step` callback. -/
structure StepState where
  startTime : ℚ
  lastTime : ℚ
  lastTransferred : ℚ
deriving DecidableEq, Repr

/-- Outcome of one `step` invocation: either a throttle delay (in
milliseconds, progress report skipped) or a progress report. -/
inductive StepResult where
  | throttle (delayMs : ℚ)
  | report (r : ProgressReport)
deriving DecidableEq, Repr

/-- The `step` option of `sftp.fastGet` in `downloadFile`: throttle first
(`totalTransferred > expectedBytes` returns a delay promise and skips the
report), otherwise report progress with the guarded speed computation and
advance the `last*` markers. -/
def downloadStep (speedLimit : JSNum) (fileSize : ℚ) (st : StepState)
    (totalTransferred total now : ℚ) : StepResult × StepState :=
  let percent : ℤ := jsRound (totalTransferred / total * 100)
  let throttleDelay : Option ℚ :=
    if h : speedLimit = ⊤ then none
    else
      let cap := speedLimit.untop h
      let elapsed := (now - st.startTime) / 1000
      let expectedBytes := elapsed * cap
      if expectedBytes < totalTransferred then
        some ((totalTransferred - expectedBytes) / cap * 1000)
      else none
  match throttleDelay with
  | some d => (.throttle d, st)
  | none =>
    let timeDiff := (now - st.lastTime) / 1000
    let bytesDiff := totalTransferred - st.lastTransferred
    let speed := if 0 < timeDiff then bytesDiff / timeDiff else 0
    (.report { percent := percent, transferred := totalTransferred, total := fileSize,
               speed := speed, speedLimit := jsNullable speedLimit },
     { st with lastTime := now, lastTransferred := totalTransferred })

/-- The `step` option of `sftp.fastPut` in `uploadFile`; its body is the
same chunk logic as `downloadStep` (with `fileSize` from `fs.statSync`). -/
def uploadStep (speedLimit : JSNum) (fileSize : ℚ) (st : StepState)
    (totalTransferred total now : ℚ) : StepResult × StepState :=
  let percent : ℤ := jsRound (totalTransferred / total * 100)
  let throttleDelay : Option ℚ :=
    if h : speedLimit = ⊤ then none
    else
      let cap := speedLimit.untop h
      let elapsed := (now - st.startTime) / 1000
      let expectedBytes := elapsed * cap
      if expectedBytes < totalTransferred then
        some ((totalTransferred - expectedBytes) / cap * 1000)
      else none
  match throttleDelay with
  | some d => (.throttle d, st)
  | none =>
    let timeDiff := (now - st.lastTime) / 1000
    let bytesDiff := totalTransferred - st.lastTransferred
    let speed := if 0 < timeDiff then bytesDiff / timeDiff else 0
    (.report { percent := percent, transferred := totalTransferred, total := fileSize,
               speed := speed, speedLimit := jsNullable speedLimit },
     { st with lastTime := now, lastTransferred := totalTransferred })

/-- How `downloadFile` / `uploadFile` drive a transfer: FTP/FTPS
connections get one single-shot `client.downloadTo` / `client.uploadFrom`
call (no step callback, no throttling); SFTP connections get
`fastGet` / `fastPut` with the step options built around the effective
speed limit. -/
inductive TransferMethod where
  | plain
  | steppedSftp (speedLimit : JSNum)
deriving DecidableEq, Repr

namespace ConnectionManager

/-- The dispatch of `downloadFile(connectionId, remotePath, localPath,
progressCallback)`: unknown id throws `'Connection not found'`;
`type === 'ftp'` runs `client.downloadTo` (plain); `type === 'sftp'` runs
`fastGet` with the step callback using
`speedLimitManager.getEffectiveLimit(connectionId, 'download')`. -/
def downloadMethod (cm : ConnectionManager) (cid : String) : Except String TransferMethod :=
  match cm.connections.lookup cid with
  | none => .error "Connection not found"
  | some c =>
    match c.type with
    | .ftp => .ok .plain
    | .sftp => .ok (.steppedSftp (cm.speedLimitManager.getEffectiveLimit cid .download))

/-- The dispatch of `uploadFile(connectionId, localPath, remotePath,
progressCallback)`: as `downloadMethod`, with
`getEffectiveLimit(connectionId, 'upload')` for the SFTP step. -/
def uploadMethod (cm : ConnectionManager) (cid : String) : Except String TransferMethod :=
  match cm.connections.lookup cid with
  | none => .error "Connection not found"
  | some c =>
    match c.type with
    | .ftp => .ok .plain
    | .sftp => .ok (.steppedSftp (cm.speedLimitManager.getEffectiveLimit cid .upload))

end ConnectionManager

/-! ## The transfer queue (`TransferQueue`, src/unnamed/part_003)

The queue is a list of shared item objects; `activeTransfers` is a
`Map<id, item>` holding references into that list, modelled as the list of
its keys.  `processQueue` is split at its `await`: the synchronous prefix
(count actives, pick the next queued item, mark it active) is
`processQueue`; everything after the `await` of `executeTransfer`
(status `completed`/`error` set by `executeTransfer`, `activeTransfers.delete`,
and the `setTimeout(() => this.processQueue(), 100)` recursion) is
`finishTransfer`.  DOM updates (`updateQueueDisplay`,
`updateTransferProgress`) and the `ipcRenderer.send` notifications are
external effects and are not modelled. -/

/-- Status strings of a queue item. -/
inductive TStatus where
  | queued
  | active
  | paused
  | completed
  | error
  | cancelled
deriving DecidableEq, Repr

/-- The payload of `addTransfer`'s argument (type, paths, size, owning
connection); it never influences scheduling decisions. -/
structure TransferDesc where
  ttype : Direction
  localPath : String
  remotePath : String
  size : ℚ
  connectionId : String
deriving DecidableEq, Repr

/-- One queue item as built by `addTransfer` (the derived `fileName`
string is omitted: it is `path.basename` of one of the paths and is never
read by the scheduler). -/
structure QItem where
  id : ℕ
  desc : TransferDesc
  status : TStatus
  progress : ℚ
  speed : ℚ
  startTime : Option ℚ
  err : Option String
  isPaused : Bool
deriving DecidableEq, Repr

/-- Mutate the first list element satisfying `p` (JS `list.find(...)`
followed by in-place mutation of the found object). -/
def updateFirst (p : QItem → Bool) (f : QItem → QItem) : List QItem → List QItem
  | [] => []
  | t :: ts => if p t then f t :: ts else t :: updateFirst p f ts

/-- `Map.set` on the key set of `activeTransfers`: adding a key that is
already present leaves the key set unchanged. -/
def insertId (i : ℕ) (l : List ℕ) : List ℕ :=
  if i ∈ l then l else i :: l

/-- `TransferQueue` state: `queue`, the key set of `activeTransfers`,
`maxConcurrent` (constructor default 3), the global `isPaused` flag and
the `queueId` counter. -/
structure TransferQueue where
  queue : List QItem := []
  activeIds : List ℕ := []
  maxConcurrent : ℕ := 3
  isPaused : Bool := false
  queueId : ℕ := 0
deriving DecidableEq, Repr

namespace TransferQueue

/-- `Array.from(this.activeTransfers.values()).filter(t => t.status ===
'active').length`: each map entry holds a reference to a queue item,
resolved here by id. -/
def activeCount (q : TransferQueue) : ℕ :=
  (q.activeIds.filter (fun i =>
    match q.queue.find? (fun t => t.id == i) with
    | some t => t.status == .active
    | none => false)).length

/-- One scheduling pass: the synchronous prefix of `processQueue`.  Bail
out when globally paused, at capacity, or with no eligible item; otherwise
mark the first `queued` non-paused item `active`, record its start time
and register it in `activeTransfers`. -/
def processQueue (q : TransferQueue) (now : ℚ) : TransferQueue :=
  if q.isPaused then q
  else if q.maxConcurrent ≤ q.activeCount then q
  else
    match q.queue.find? (fun t => t.status == .queued && !t.isPaused) with
    | none => q
    | some t =>
      { q with
        queue := updateFirst (fun u => u.status == .queued && !u.isPaused)
          (fun u => { u with status := .active, startTime := some now }) q.queue
        activeIds := insertId t.id q.activeIds }

/-- The enqueue part of `addTransfer(transfer)`: assign `++this.queueId`,
build the item with status `queued`, push it at the back. -/
def enqueueItem (q : TransferQueue) (d : TransferDesc) : ℕ × TransferQueue :=
  let id := q.queueId + 1
  let item : QItem :=
    { id := id, desc := d, status := .queued, progress := 0, speed := 0,
      startTime := none, err := none, isPaused := false }
  (id, { q with queueId := id, queue := q.queue ++ [item] })

/-- `addTransfer(transfer)`: enqueue, then trigger a scheduling pass;
returns the id immediately. -/
def addTransfer (q : TransferQueue) (d : TransferDesc) (now : ℚ) : ℕ × TransferQueue :=
  let p := q.enqueueItem d
  (p.1, p.2.processQueue now)

/-- The terminal transition of one execution: `executeTransfer` resolves
(status `completed`, progress 100) or rejects (status `error`, message
retained), after which `processQueue` removes the item from
`activeTransfers`.  `outcome = none` is success, `some msg` is failure. -/
def settle (q : TransferQueue) (id : ℕ) (outcome : Option String) : TransferQueue :=
  { q with
    queue := updateFirst (fun t => t.id == id)
      (fun t =>
        match outcome with
        | none => { t with status := .completed, progress := 100 }
        | some msg => { t with status := .error, err := some msg }) q.queue
    activeIds := q.activeIds.filter (fun i => i != id) }

/-- A terminal transition followed by the `setTimeout(() =>
this.processQueue(), 100)` pass. -/
def finishTransfer (q : TransferQueue) (id : ℕ) (outcome : Option String) (now : ℚ) :
    TransferQueue :=
  (q.settle id outcome).processQueue now

/-- `pauseTransfer(id)`: find the item by id; only when its status is
`active`, set the cooperative flag and the status `paused` (the
`ipcRenderer.send('pause-transfer', id)` is an external effect).  An
unknown id finds nothing and the call silently does nothing. -/
def pauseTransfer (q : TransferQueue) (id : ℕ) : TransferQueue :=
  { q with
    queue := updateFirst (fun t => t.id == id)
      (fun t => if t.status == .active
        then { t with isPaused := true, status := .paused }
        else t) q.queue }

/-- The mutation part of `resumeTransfer(id)` when the item is `paused`:
clear the flag and set status back to `queued`. -/
def markQueued (q : TransferQueue) (id : ℕ) : TransferQueue :=
  { q with
    queue := updateFirst (fun t => t.id == id)
      (fun t => { t with isPaused := false, status := .queued }) q.queue }

/-- `resumeTransfer(id)`: only when the item exists and is `paused`, mark
it `queued` and trigger a scheduling pass; otherwise do nothing. -/
def resumeTransfer (q : TransferQueue) (id : ℕ) (now : ℚ) : TransferQueue :=
  match q.queue.find? (fun t => t.id == id) with
  | none => q
  | some t =>
    if t.status == .paused then (q.markQueued id).processQueue now
    else q

/-- `cancelTransfer(id)`: when the item exists — in any status — set its
status to `cancelled`, drop it from `activeTransfers` and trigger a
scheduling pass (the `ipcRenderer.send('cancel-transfer', id)` for active
items is an external effect). -/
def cancelTransfer (q : TransferQueue) (id : ℕ) (now : ℚ) : TransferQueue :=
  match q.queue.find? (fun t => t.id == id) with
  | none => q
  | some _ =>
    ({ q with
       queue := updateFirst (fun t => t.id == id)
         (fun t => { t with status := .cancelled }) q.queue
       activeIds := q.activeIds.filter (fun i => i != id) }).processQueue now

/-- `clearCompleted()`: drop every `completed`, `cancelled` and `error`
item from the backlog. -/
def clearCompleted (q : TransferQueue) : TransferQueue :=
  { q with
    queue := q.queue.filter (fun t =>
      t.status != .completed && t.status != .cancelled && t.status != .error) }

/-- Externally triggered queue events: enqueue, pause, resume, cancel, a
terminal transition of a running execution, `clearCompleted`, and a bare
scheduling pass (the 100 ms `setTimeout` recursion). -/
inductive QOp where
  | add (d : TransferDesc) (now : ℚ)
  | pause (id : ℕ)
  | resume (id : ℕ) (now : ℚ)
  | cancel (id : ℕ) (now : ℚ)
  | finish (id : ℕ) (outcome : Option String) (now : ℚ)
  | clear
  | pass (now : ℚ)
deriving DecidableEq, Repr

/-- Apply one queue event. -/
def applyOp (q : TransferQueue) : QOp → TransferQueue
  | .add d now => (q.addTransfer d now).2
  | .pause id => q.pauseTransfer id
  | .resume id now => q.resumeTransfer id now
  | .cancel id now => q.cancelTransfer id now
  | .finish id outcome now => q.finishTransfer id outcome now
  | .clear => q.clearCompleted
  | .pass now => q.processQueue now

/-- Apply a sequence of queue events. -/
def applyOps (q : TransferQueue) (ops : List QOp) : TransferQueue :=
  ops.foldl applyOp q

/-- A fresh queue with concurrency bound `k` (the constructor uses
`maxConcurrent = 3`). -/
def initial (k : ℕ) : TransferQueue :=
  { maxConcurrent := k }

/-- The number of queue items whose status is `active`. -/
def numActive (q : TransferQueue) : ℕ :=
  (q.queue.filter (fun t => t.status == .active)).length

end TransferQueue

/-- Well-formedness of a reachable queue state (a verification invariant
over the embedded state, not a source function): ids strictly increase
along the backlog and are bounded by the `queueId` counter, every `active`
item is registered in `activeTransfers`, the `activeTransfers` key set has
no duplicates, and the number of `active` items respects the concurrency
bound. -/
def TransferQueue.Inv (q : TransferQueue) : Prop :=
  q.queue.Pairwise (fun a b => a.id < b.id)
  ∧ (∀ t ∈ q.queue, t.id ≤ q.queueId)
  ∧ (∀ t ∈ q.queue, t.status = .active → t.id ∈ q.activeIds)
  ∧ q.activeIds.Nodup
  ∧ q.numActive ≤ q.maxConcurrent

/-! ## Concrete example states -/

/-- A manager with one registered FTP connection. -/
def ftpExample : ConnectionManager :=
  { connections := [("f", { id := "f", type := .ftp })] }

/-- A manager with one registered SFTP connection. -/
def sftpExample : ConnectionManager :=
  { connections := [("s", { id := "s", type := .sftp })] }

/-- The state `sftpExample` reaches after `disconnect("s")`: the session
entry is gone while the speed-limit registry keeps the 1024 B/s entry. -/
def sftpAfterDisconnect : ConnectionManager :=
  { connections := []
    speedLimitManager := { limits := [("s", { download := some 1024 })] } }

/-- A transfer descriptor; its payload never influences scheduling. -/
def descExample : TransferDesc :=
  { ttype := .download, localPath := "/tmp/a", remotePath := "/srv/a", size := 10,
    connectionId := "s" }

/-- A queue item that has already completed. -/
def completedItem : QItem :=
  { id := 1, desc := descExample, status := .completed, progress := 100, speed := 0,
    startTime := some 0, err := none, isPaused := false }

/-- A queue holding only `completedItem`. -/
def completedQueue : TransferQueue :=
  { queue := [completedItem], queueId := 1 }

/-- A queue item still waiting to be scheduled. -/
def queuedItem : QItem :=
  { id := 1, desc := descExample, status := .queued, progress := 0, speed := 0,
    startTime := none, err := none, isPaused := false }

/-- A queue holding only `queuedItem`, with free capacity. -/
def queuedQueue : TransferQueue :=
  { queue := [queuedItem], queueId := 1 }

/-- A limiter with a 100 B/s cap and an empty byte budget. -/
def limiterA : SpeedLimiter :=
  { maxBytesPerSecond := (100 : ℚ), chunkSize := 16384, startTime := 0, totalBytes := 0 }

/-- A limiter with a 100 B/s cap that has already sent 200 bytes. -/
def limiterB : SpeedLimiter :=
  { maxBytesPerSecond := (100 : ℚ), chunkSize := 16384, startTime := 0, totalBytes := 200 }

/-- A limiter with no cap configured. -/
def limiterInf : SpeedLimiter :=
  { maxBytesPerSecond := ⊤, chunkSize := 16384, startTime := 0, totalBytes := 0 }

/-- A step-callback state at the start of a transfer. -/
def stepStateZero : StepState :=
  { startTime := 0, lastTime := 0, lastTransferred := 0 }

/-- The report produced by an uncapped step at `t = 100` of 1000 bytes,
one second after the previous callback. -/
def reportA : ProgressReport :=
  { percent := 10, transferred := 100, total := 1000, speed := 100, speedLimit := none }

/-- The step state after `reportA`. -/
def stateA : StepState :=
  { startTime := 0, lastTime := 1000, lastTransferred := 100 }

/-- The report produced by an uncapped step at `t = 100` of 1000 bytes
with zero elapsed time since the previous callback. -/
def reportB : ProgressReport :=
  { percent := 10, transferred := 100, total := 1000, speed := 0, speedLimit := none }

/-- The step state after `reportB`. -/
def stateB : StepState :=
  { startTime := 0, lastTime := 0, lastTransferred := 100 }

/-! ## Helper lemmas -/

theorem jsOrInfinity_eq_getD (o : Option JSNum) (h : ∀ v ∈ o, v ≠ 0) :
    jsOrInfinity o = o.getD ⊤ := by
  cases o with
  | none => rfl
  | some v => simp [jsOrInfinity, h v rfl]

theorem lookup_mapSet_self (k : String) (v : ConnLimits) (l : List (String × ConnLimits)) :
    (mapSet k v l).lookup k = some v := by
  induction l with
  | nil => simp [mapSet, List.lookup]
  | cons p rest ih =>
    obtain ⟨k', v'⟩ := p
    by_cases h : k' = k
    · simp [mapSet, h, List.lookup]
    · have hbe : (k == k') = false := beq_eq_false_iff_ne.mpr (Ne.symm h)
      simp [mapSet, if_neg h, List.lookup, hbe, ih]

theorem lookup_filter_ne {β : Type} (cid : String) (l : List (String × β)) :
    (l.filter (fun p => p.1 != cid)).lookup cid = none := by
  induction l with
  | nil => rfl
  | cons p rest ih =>
    obtain ⟨k, v⟩ := p
    by_cases h : k = cid
    · simpa [List.filter, h] using ih
    · have hbne : (k != cid) = true := by simp [bne_iff_ne, h]
      have hbe : (cid == k) = false := beq_eq_false_iff_ne.mpr (Ne.symm h)
      simp [List.filter, hbne, List.lookup, hbe, ih]

theorem ConnLimits.get_set_same (l : ConnLimits) (ty : Direction) (v : JSNum) :
    (l.set ty v).get ty = some v := by
  cases ty <;> rfl

theorem SpeedLimitManager.getLimit_eq_getD (m : SpeedLimitManager) (cid : String)
    (ty : Direction) (hconn : ∀ cl ∈ m.limits.lookup cid, ∀ v ∈ cl.get ty, v ≠ 0) :
    m.getLimit cid ty = ((m.limits.lookup cid).bind (fun cl => cl.get ty)).getD ⊤ := by
  unfold SpeedLimitManager.getLimit
  cases hc : m.limits.lookup cid with
  | none => rfl
  | some cl =>
    simp only [Option.some_bind]
    exact jsOrInfinity_eq_getD _ (hconn cl hc)

/-! ## Claims about the speed-limit registry -/

/-- Claim C1: for every configuration of per-connection and global speed
caps (caps are bandwidth bounds, hence non-zero; the only caller of
`setLimit`/`setGlobalLimit` converts a `0` entered in the UI to `Infinity`
before storing it), `getEffectiveLimit(connectionId, direction)` is the
minimum of the per-connection cap and the global cap for that direction,
an absent cap reading as `+∞`, and it is `+∞` when both are unset. -/
theorem getEffectiveLimit_min_spec (m : SpeedLimitManager) (cid : String) (ty : Direction)
    (hconn : ∀ cl ∈ m.limits.lookup cid, ∀ v ∈ cl.get ty, v ≠ 0)
    (hglob : ∀ g ∈ m.globalLimits, ∀ v ∈ g.get ty, v ≠ 0) :
    m.getEffectiveLimit cid ty
      = min (((m.limits.lookup cid).bind (fun cl => cl.get ty)).getD ⊤)
            ((m.globalLimits.bind (fun g => g.get ty)).getD ⊤)
    ∧ ((m.limits.lookup cid).bind (fun cl => cl.get ty) = none →
        m.globalLimits.bind (fun g => g.get ty) = none →
        m.getEffectiveLimit cid ty = ⊤) := by
  have hglob' : jsOrInfinity (m.globalLimits.bind (fun g => g.get ty))
      = (m.globalLimits.bind (fun g => g.get ty)).getD ⊤ := by
    apply jsOrInfinity_eq_getD
    intro v hv
    cases hg : m.globalLimits with
    | none => rw [hg] at hv; exact absurd hv (by simp)
    | some g =>
      rw [hg] at hv
      simp only [Option.some_bind] at hv
      exact hglob g hg v hv
  have hmain : m.getEffectiveLimit cid ty
      = min (((m.limits.lookup cid).bind (fun cl => cl.get ty)).getD ⊤)
            ((m.globalLimits.bind (fun g => g.get ty)).getD ⊤) := by
    unfold SpeedLimitManager.getEffectiveLimit
    rw [SpeedLimitManager.getLimit_eq_getD m cid ty hconn, hglob']
  refine ⟨hmain, fun h1 h2 => ?_⟩
  rw [hmain, h1, h2]
  simp

/-- Witness for C1: one connection cap of 1024 B/s set, no global cap. -/
theorem getEffectiveLimit_min_spec_witness :
    (SpeedLimitManager.setLimit {} "c" .download 1024).getEffectiveLimit "c" .download
      = min ((((SpeedLimitManager.setLimit {} "c" .download 1024).limits.lookup "c").bind
          (fun cl => cl.get .download)).getD ⊤)
        (((SpeedLimitManager.setLimit {} "c" .download 1024).globalLimits.bind
          (fun g => g.get .download)).getD ⊤) :=
  (getEffectiveLimit_min_spec (SpeedLimitManager.setLimit {} "c" .download 1024) "c"
    .download (by decide) (by decide)).1

theorem getLimit_setLimit_same (m : SpeedLimitManager) (cid : String) (ty : Direction)
    (v : JSNum) (hv : v ≠ 0) :
    (m.setLimit cid ty v).getLimit cid ty = v := by
  unfold SpeedLimitManager.setLimit
  cases hc : m.limits.lookup cid with
  | none =>
    simp only [SpeedLimitManager.getLimit, lookup_mapSet_self, ConnLimits.get_set_same,
      jsOrInfinity, if_neg hv]
  | some cur =>
    simp only [SpeedLimitManager.getLimit, lookup_mapSet_self, ConnLimits.get_set_same,
      jsOrInfinity, if_neg hv]

/-- Claim C7: `setSpeedLimit(connectionId, direction, v)` followed by
`getSpeedLimits(connectionId)` returns exactly the `v` that was set for
that direction, and `setGlobalSpeedLimit` then `getSpeedLimits`
round-trips the global value likewise.  A cap is non-zero: the only
caller converts a `0` entered in the UI to `Infinity` before storing, and
a stored `0` would read back as `Infinity` through `|| Infinity`. -/
theorem speedLimit_roundtrip (cm : ConnectionManager) (cid : String) (ty : Direction)
    (v : JSNum) (hv : v ≠ 0) :
    ((cm.setSpeedLimit cid ty v).getSpeedLimits cid).perConn ty = v
    ∧ ((cm.setGlobalSpeedLimit ty v).getSpeedLimits cid).global ty = v := by
  constructor
  · cases ty <;>
      simp [ConnectionManager.getSpeedLimits, ConnectionManager.SpeedLimits.perConn,
        ConnectionManager.setSpeedLimit, getLimit_setLimit_same _ _ _ _ hv]
  · cases ty <;>
      simp [ConnectionManager.getSpeedLimits, ConnectionManager.SpeedLimits.global,
        ConnectionManager.setGlobalSpeedLimit, SpeedLimitManager.setGlobalLimit,
        ConnLimits.set, ConnLimits.get, jsOrInfinity, hv]

/-- Witness for C7 at `v = 2048` B/s on the upload direction. -/
theorem speedLimit_roundtrip_witness :
    ((({} : ConnectionManager).setSpeedLimit "c" .upload 2048).getSpeedLimits "c").perConn
        .upload = 2048
    ∧ ((({} : ConnectionManager).setGlobalSpeedLimit .upload 2048).getSpeedLimits "c").global
        .upload = 2048 :=
  speedLimit_roundtrip {} "c" .upload 2048 (by decide)

/-- Counterexample to claim C9: with session `"s"` holding a 1024 B/s
download cap, a successful `disconnect("s")` leaves the cap readable —
`getLimit` still returns 1024 rather than unbounded, because `disconnect`
never calls `speedLimitManager.removeConnection`. -/
theorem disconnect_keeps_limits_cex :
    ((sftpExample.setSpeedLimit "s" .download 1024).disconnect "s").map
        (fun cm => cm.speedLimitManager.getLimit "s" .download)
      = .ok 1024 := by rfl

/-- Claim C9 (amended): a successful `disconnect(connectionId)` removes
the session registry entry but leaves the speed-limit registry entirely
unchanged; the per-connection caps for that id therefore remain readable.
`SpeedLimitManager.removeConnection` — which nothing in the repository
calls — is what would evict them: after it, the per-connection limits for
that id read back as unbounded. -/
theorem disconnect_preserves_speedLimits (cm cm' : ConnectionManager) (cid : String)
    (h : cm.disconnect cid = .ok cm') :
    cm'.speedLimitManager = cm.speedLimitManager
    ∧ ∀ ty, (cm.speedLimitManager.removeConnection cid).getLimit cid ty = ⊤ := by
  constructor
  · unfold ConnectionManager.disconnect at h
    cases hc : cm.connections.lookup cid with
    | none => rw [hc] at h; cases h
    | some c => rw [hc] at h; cases h; rfl
  · intro ty
    unfold SpeedLimitManager.removeConnection SpeedLimitManager.getLimit
    simp only [lookup_filter_ne]

/-- Witness for C9 (amended) on the concrete disconnect of `"s"`. -/
theorem disconnect_preserves_speedLimits_witness :
    sftpAfterDisconnect.speedLimitManager
        = (sftpExample.setSpeedLimit "s" .download 1024).speedLimitManager
    ∧ (((sftpExample.setSpeedLimit "s" .download 1024).speedLimitManager.removeConnection
        "s").getLimit "s" .download = ⊤) :=
  ⟨(disconnect_preserves_speedLimits _ sftpAfterDisconnect "s" (by rfl)).1,
   (disconnect_preserves_speedLimits _ sftpAfterDisconnect "s" (by rfl)).2 .download⟩

theorem jsNullable_top : jsNullable ⊤ = none := rfl

/-- Claim C5: the rate limiter implements the elapsed-budget throttle.
With a finite cap: for a chunk of size `c`, `expected = elapsedSeconds *
cap`; when `totalBytes + c ≤ expected` the chunk is emitted with zero
delay, otherwise it is delayed `(totalBytes + c - expected) / cap` seconds
(returned as milliseconds, as handed to `setTimeout`); in both branches
`totalBytes` grows by `c`.  With no cap configured (`maxBytesPerSecond`
defaults to `Infinity` through `options.maxBytesPerSecond || Infinity`)
every chunk passes through immediately with no bookkeeping. -/
theorem speedLimiter_elapsed_budget (s : SpeedLimiter) (c now : ℚ) :
    (s.maxBytesPerSecond = ⊤ → s.transform c now = (0, s))
    ∧ (∀ h : s.maxBytesPerSecond ≠ ⊤,
        (s.totalBytes + c ≤ (now - s.startTime) / 1000 * s.maxBytesPerSecond.untop h →
          s.transform c now = (0, { s with totalBytes := s.totalBytes + c }))
        ∧ (¬ s.totalBytes + c ≤ (now - s.startTime) / 1000 * s.maxBytesPerSecond.untop h →
          s.transform c now
            = ((s.totalBytes + c - (now - s.startTime) / 1000 * s.maxBytesPerSecond.untop h)
                / s.maxBytesPerSecond.untop h * 1000,
              { s with totalBytes := s.totalBytes + c })))
    ∧ (∀ (optChunk : Option ℚ) (now0 : ℚ),
        (SpeedLimiter.create none optChunk now0).maxBytesPerSecond = ⊤) := by
  refine ⟨fun h => ?_, fun h => ⟨fun hle => ?_, fun hgt => ?_⟩, fun oc n0 => rfl⟩
  · simp [SpeedLimiter.transform, h]
  · simp only [SpeedLimiter.transform, dif_neg h]
    rw [if_pos hle]
  · simp only [SpeedLimiter.transform, dif_neg h]
    rw [if_neg hgt]

/-- Witness for C5: immediate emission, delayed emission, and uncapped
pass-through at concrete states. -/
theorem speedLimiter_elapsed_budget_witness :
    limiterA.transform 50 1000 = (0, { limiterA with totalBytes := limiterA.totalBytes + 50 })
    ∧ limiterB.transform 50 1000
        = ((limiterB.totalBytes + 50 - (1000 - limiterB.startTime) / 1000 * 100) / 100 * 1000,
           { limiterB with totalBytes := limiterB.totalBytes + 50 })
    ∧ limiterInf.transform 50 1000 = (0, limiterInf) :=
  ⟨((speedLimiter_elapsed_budget limiterA 50 1000).2.1 (by simp [limiterA])).1
      (show (0 : ℚ) + 50 ≤ (1000 - 0) / 1000 * 100 by norm_num),
   ((speedLimiter_elapsed_budget limiterB 50 1000).2.1 (by simp [limiterB])).2
      (show ¬ ((200 : ℚ) + 50 ≤ (1000 - 0) / 1000 * 100) by norm_num),
   (speedLimiter_elapsed_budget limiterInf 50 1000).1 rfl⟩

theorem downloadStep_cases (sl : JSNum) (fs : ℚ) (st : StepState) (t tot now : ℚ) :
    (∃ d, downloadStep sl fs st t tot now = (.throttle d, st))
    ∨ downloadStep sl fs st t tot now
        = (.report { percent := jsRound (t / tot * 100), transferred := t, total := fs,
                     speed := if 0 < (now - st.lastTime) / 1000
                       then (t - st.lastTransferred) / ((now - st.lastTime) / 1000) else 0,
                     speedLimit := jsNullable sl },
           { st with lastTime := now, lastTransferred := t }) := by
  by_cases hsl : sl = ⊤
  · subst hsl
    exact Or.inr rfl
  · lift sl to ℚ using hsl with q
    by_cases hc : (now - st.startTime) / 1000 * q < t
    · refine Or.inl ⟨(t - (now - st.startTime) / 1000 * q) / q * 1000, ?_⟩
      unfold downloadStep
      rw [dif_neg (WithTop.coe_ne_top (a := q))]
      simp only [WithTop.untop_coe]
      rw [if_pos hc]
    · refine Or.inr ?_
      unfold downloadStep
      rw [dif_neg (WithTop.coe_ne_top (a := q))]
      simp only [WithTop.untop_coe]
      rw [if_neg hc]

theorem step_report_speed (sl : JSNum) (fs : ℚ) (st : StepState) (t tot now : ℚ)
    (r : ProgressReport) (st' : StepState)
    (h : downloadStep sl fs st t tot now = (.report r, st')) :
    (0 < (now - st.lastTime) / 1000 →
      r.speed = (t - st.lastTransferred) / ((now - st.lastTime) / 1000))
    ∧ ((now - st.lastTime) / 1000 = 0 → r.speed = 0) := by
  rcases downloadStep_cases sl fs st t tot now with ⟨d, hd⟩ | hrep
  · rw [hd] at h
    exact absurd h (by simp)
  · rw [hrep] at h
    simp only [Prod.mk.injEq, StepResult.report.injEq] at h
    obtain ⟨hr, -⟩ := h
    constructor
    · intro hpos
      rw [← hr, if_pos hpos]
    · intro hzero
      rw [← hr, hzero, if_neg (lt_irrefl (0 : ℚ))]

/-- Claim C10: whenever the SFTP download or upload step callback emits a
progress report, the reported speed is the bytes transferred since the
previous callback divided by the elapsed seconds since the previous
callback when that elapsed time is positive, and exactly 0 when it is
zero — the `timeDiff > 0` guard keeps the division total (no
`NaN`/`Infinity` arises). -/
theorem step_speed_guarded (sl : JSNum) (fs : ℚ) (st : StepState) (t tot now : ℚ) :
    (∀ (r : ProgressReport) (st' : StepState),
      downloadStep sl fs st t tot now = (.report r, st') →
        (0 < (now - st.lastTime) / 1000 →
          r.speed = (t - st.lastTransferred) / ((now - st.lastTime) / 1000))
        ∧ ((now - st.lastTime) / 1000 = 0 → r.speed = 0))
    ∧ (∀ (r : ProgressReport) (st' : StepState),
      uploadStep sl fs st t tot now = (.report r, st') →
        (0 < (now - st.lastTime) / 1000 →
          r.speed = (t - st.lastTransferred) / ((now - st.lastTime) / 1000))
        ∧ ((now - st.lastTime) / 1000 = 0 → r.speed = 0)) := by
  have hud : uploadStep = downloadStep := rfl
  exact ⟨fun r st' h => step_report_speed sl fs st t tot now r st' h,
         fun r st' h => step_report_speed sl fs st t tot now r st' (hud ▸ h)⟩

/-- Witness for C10: positive elapsed time gives the quotient, zero
elapsed time gives speed 0, at concrete step invocations. -/
theorem step_speed_guarded_witness :
    reportA.speed = (100 - stepStateZero.lastTransferred)
        / ((1000 - stepStateZero.lastTime) / 1000)
    ∧ reportB.speed = 0 :=
  ⟨((step_speed_guarded ⊤ 1000 stepStateZero 100 1000 1000).1 reportA stateA
      (by simp only [downloadStep, stepStateZero, reportA, stateA, jsNullable_top]
          norm_num [jsRound])).1
      (by norm_num [stepStateZero]),
   ((step_speed_guarded ⊤ 1000 stepStateZero 100 1000 0).1 reportB stateB
      (by simp only [downloadStep, stepStateZero, reportB, stateB, jsNullable_top]
          norm_num [jsRound])).2
      (by norm_num [stepStateZero])⟩

/-- Counterexample to claim C4: on an FTP (and FTPS — `connect` records
both as `type: 'ftp'`) connection, `downloadFile` and `uploadFile` issue
one single-shot `downloadTo`/`uploadFrom` call with no per-chunk step
callback, so no rate limiting, no speed computation and no progress
reporting wraps the transfer — refuting "every protocol variant". -/
theorem ftp_transfer_unwrapped_cex :
    ftpExample.downloadMethod "f" = .ok .plain
    ∧ ftpExample.uploadMethod "f" = .ok .plain :=
  ⟨rfl, rfl⟩

/-- Claim C4 (amended): only the SFTP variant wraps upload and download in
a per-chunk step callback; that callback (a) applies the elapsed-budget
throttle using the effective cap resolved from the limit registry for this
connection and direction, (b) computes instantaneous speed as bytes since
the previous callback over elapsed seconds since the previous callback,
and (c) reports `{percent, transferred, total, speed, appliedCap}` — with
the caveat that on a chunk that triggers a throttle delay the report for
that chunk is skipped.  FTP/FTPS transfers are single-shot calls with no
callback. -/
theorem sftp_transfer_wrapped (cm : ConnectionManager) (cid : String) (c : Connection)
    (hc : cm.connections.lookup cid = some c) (ht : c.type = .sftp) :
    cm.downloadMethod cid
      = .ok (.steppedSftp (cm.speedLimitManager.getEffectiveLimit cid .download))
    ∧ cm.uploadMethod cid
      = .ok (.steppedSftp (cm.speedLimitManager.getEffectiveLimit cid .upload))
    ∧ (∀ (sl : JSNum) (fs : ℚ) (st : StepState) (t tot now : ℚ) (h : sl ≠ ⊤),
        ((now - st.startTime) / 1000 * sl.untop h < t →
          downloadStep sl fs st t tot now
            = (.throttle ((t - (now - st.startTime) / 1000 * sl.untop h) / sl.untop h * 1000),
              st))
        ∧ (t ≤ (now - st.startTime) / 1000 * sl.untop h →
          downloadStep sl fs st t tot now
            = (.report { percent := jsRound (t / tot * 100), transferred := t, total := fs,
                         speed := if 0 < (now - st.lastTime) / 1000
                           then (t - st.lastTransferred) / ((now - st.lastTime) / 1000) else 0,
                         speedLimit := jsNullable sl },
              { st with lastTime := now, lastTransferred := t })))
    ∧ (∀ (fs : ℚ) (st : StepState) (t tot now : ℚ),
        downloadStep ⊤ fs st t tot now
          = (.report { percent := jsRound (t / tot * 100), transferred := t, total := fs,
                       speed := if 0 < (now - st.lastTime) / 1000
                         then (t - st.lastTransferred) / ((now - st.lastTime) / 1000) else 0,
                       speedLimit := none },
            { st with lastTime := now, lastTransferred := t }))
    ∧ uploadStep = downloadStep := by
  obtain ⟨cid0, cty⟩ := c
  cases ht
  refine ⟨?_, ?_, ?_, fun fs st t tot now => rfl, rfl⟩
  · simp [ConnectionManager.downloadMethod, hc]
  · simp [ConnectionManager.uploadMethod, hc]
  · intro sl fs st t tot now
    induction sl using WithTop.recTopCoe with
    | top => intro h; exact absurd rfl h
    | coe q => ?_
    intro h
    constructor
    · intro hlt
      unfold downloadStep
      rw [dif_neg (WithTop.coe_ne_top (a := q))]
      simp only [WithTop.untop_coe] at hlt ⊢
      rw [if_pos hlt]
    · intro hle
      unfold downloadStep
      rw [dif_neg (WithTop.coe_ne_top (a := q))]
      simp only [WithTop.untop_coe] at hle ⊢
      rw [if_neg (not_lt.mpr hle)]

/-- Witness for C4 (amended): the SFTP dispatch at the concrete registry
`sftpExample` uses the effective limits from the registry. -/
theorem sftp_transfer_wrapped_witness :
    sftpExample.downloadMethod "s"
      = .ok (.steppedSftp (sftpExample.speedLimitManager.getEffectiveLimit "s" .download))
    ∧ sftpExample.uploadMethod "s"
      = .ok (.steppedSftp (sftpExample.speedLimitManager.getEffectiveLimit "s" .upload)) :=
  ⟨(sftp_transfer_wrapped sftpExample "s" { id := "s", type := .sftp } rfl rfl).1,
   (sftp_transfer_wrapped sftpExample "s" { id := "s", type := .sftp } rfl rfl).2.1⟩

theorem forall2_updateFirst {R : QItem → QItem → Prop} {p : QItem → Bool} {f : QItem → QItem}
    (hrefl : ∀ t, R t t) (hf : ∀ t, p t = true → R t (f t)) :
    ∀ l : List QItem, List.Forall₂ R l (updateFirst p f l) := by
  intro l
  induction l with
  | nil => exact List.Forall₂.nil
  | cons t ts ih =>
    unfold updateFirst
    by_cases h : p t
    · rw [if_pos h]
      exact List.Forall₂.cons (hf t h) (List.forall₂_same.mpr fun x _ => hrefl x)
    · rw [if_neg h]
      exact List.Forall₂.cons (hrefl t) ih

theorem updateFirst_found {p : QItem → Bool} {f : QItem → QItem} :
    ∀ {l : List QItem} {t : QItem}, l.find? p = some t →
      List.Forall₂ (fun u u' => u' = u ∨ (u = t ∧ u' = f t)) l (updateFirst p f l) := by
  intro l
  induction l with
  | nil => intro t h; cases h
  | cons u us ih =>
    intro t h
    unfold updateFirst
    by_cases hp : p u
    · rw [List.find?_cons_of_pos _ hp] at h
      cases h
      rw [if_pos hp]
      exact List.Forall₂.cons (Or.inr ⟨rfl, rfl⟩)
        (List.forall₂_same.mpr fun x _ => Or.inl rfl)
    · rw [List.find?_cons_of_neg _ hp] at h
      rw [if_neg hp]
      exact List.Forall₂.cons (Or.inl rfl) (ih h)

theorem updateFirst_not_found {p : QItem → Bool} {f : QItem → QItem} :
    ∀ {l : List QItem}, l.find? p = none → updateFirst p f l = l := by
  intro l
  induction l with
  | nil => intro _; rfl
  | cons u us ih =>
    intro h
    unfold updateFirst
    by_cases hp : p u
    · rw [List.find?_cons_of_pos _ hp] at h; cases h
    · rw [List.find?_cons_of_neg _ hp] at h
      rw [if_neg hp, ih h]

theorem forall2_compose {R S T : QItem → QItem → Prop}
    (h : ∀ a b c, R a b → S b c → T a c) :
    ∀ {l₁ l₂ l₃ : List QItem}, List.Forall₂ R l₁ l₂ → List.Forall₂ S l₂ l₃ →
      List.Forall₂ T l₁ l₃ := by
  intro l₁ l₂ l₃ h12
  induction h12 generalizing l₃ with
  | nil => intro h23; cases h23; exact .nil
  | cons hr _ ih =>
    intro h23
    cases h23 with
    | cons hs hss => exact .cons (h _ _ _ hr hs) (ih hss)

theorem processQueue_forall2 (q : TransferQueue) (now : ℚ) :
    List.Forall₂ (fun u u' => u' = u ∨ (u.status = .queued ∧ u.isPaused = false
        ∧ u' = { u with status := .active, startTime := some now }))
      q.queue (q.processQueue now).queue := by
  have hrefl : ∀ l : List QItem,
      List.Forall₂ (fun u u' : QItem => u' = u ∨ (u.status = .queued ∧ u.isPaused = false
        ∧ u' = { u with status := .active, startTime := some now })) l l :=
    fun l => List.forall₂_same.mpr fun x _ => Or.inl rfl
  unfold TransferQueue.processQueue
  split
  · exact hrefl _
  · split
    · exact hrefl _
    · split
      · exact hrefl _
      · exact forall2_updateFirst (fun t => Or.inl rfl)
          (fun t hp => by
            have hq : t.status = .queued ∧ t.isPaused = false := by
              have := hp
              simp only [Bool.and_eq_true, beq_iff_eq, Bool.not_eq_true'] at this
              exact this
            exact Or.inr ⟨hq.1, hq.2, rfl⟩) _

/-- Counterexample to claim C3: `cancelTransfer` has no status guard
(`if (transfer)` only), so a cancel request on an item already in the
terminal state `completed` moves it to `cancelled`. -/
theorem cancel_terminal_cex :
    (completedQueue.cancelTransfer 1 0).queue.map (fun t => t.status) = [.cancelled] := by
  rfl

/-- Claim C3 (amended): pause changes an item's status only along the edge
`active → paused`; resume only along `paused → queued` (after which the
triggered scheduling pass may promote a `queued` item to `active`); but a
cancel request sets `cancelled` from ANY state, including the terminal
states — so terminal items are never changed by pause or resume, while a
later cancel does change them. -/
theorem status_transitions_amended (q : TransferQueue) (id : ℕ) (now : ℚ) :
    List.Forall₂ (fun u u' => u'.status = u.status
        ∨ (u.status = .active ∧ u'.status = .paused))
      q.queue (q.pauseTransfer id).queue
    ∧ List.Forall₂ (fun u u' => u'.status = u.status
        ∨ (u.status = .paused ∧ (u'.status = .queued ∨ u'.status = .active))
        ∨ (u.status = .queued ∧ u'.status = .active))
      q.queue (q.resumeTransfer id now).queue
    ∧ List.Forall₂ (fun u u' => u'.status = u.status ∨ u'.status = .cancelled
        ∨ (u.status = .queued ∧ u'.status = .active))
      q.queue (q.cancelTransfer id now).queue
    ∧ List.Forall₂ (fun u u' =>
        (u.status = .completed ∨ u.status = .error ∨ u.status = .cancelled) →
          u'.status = u.status)
      q.queue (q.pauseTransfer id).queue
    ∧ List.Forall₂ (fun u u' =>
        (u.status = .completed ∨ u.status = .error ∨ u.status = .cancelled) →
          u'.status = u.status)
      q.queue (q.resumeTransfer id now).queue := by
  have hpause : List.Forall₂ (fun u u' => u'.status = u.status
      ∨ (u.status = .active ∧ u'.status = .paused)) q.queue (q.pauseTransfer id).queue := by
    unfold TransferQueue.pauseTransfer
    refine forall2_updateFirst (fun t => Or.inl rfl) (fun t _ => ?_) _
    by_cases hs : t.status == TStatus.active
    · rw [if_pos hs]
      exact Or.inr ⟨by simpa using hs, rfl⟩
    · rw [if_neg hs]
      exact Or.inl rfl
  have hresume : List.Forall₂ (fun u u' => u'.status = u.status
      ∨ (u.status = .paused ∧ (u'.status = .queued ∨ u'.status = .active))
      ∨ (u.status = .queued ∧ u'.status = .active))
      q.queue (q.resumeTransfer id now).queue := by
    unfold TransferQueue.resumeTransfer
    split
    · exact List.forall₂_same.mpr fun x _ => Or.inl rfl
    · rename_i t hfind
      split
      · rename_i hps
        have hmark : List.Forall₂ (fun u u' => u' = u ∨ (u = t ∧ u'.status = .queued))
            q.queue ((q.markQueued id).queue) := by
          unfold TransferQueue.markQueued
          exact (updateFirst_found hfind).imp
            (fun a b hab => hab.imp (fun h => h) (fun h => ⟨h.1, by rw [h.2]⟩))
        refine forall2_compose ?_ hmark (processQueue_forall2 (q.markQueued id) now)
        intro a b c hab hbc
        rcases hab with rfl | ⟨rfl, hbq⟩
        · rcases hbc with rfl | ⟨hbq, _, rfl⟩
          · exact Or.inl rfl
          · exact Or.inr (Or.inr ⟨hbq, rfl⟩)
        · have hts : a.status = .paused := by simpa using hps
          rcases hbc with rfl | ⟨_, _, rfl⟩
          · exact Or.inr (Or.inl ⟨hts, Or.inl hbq⟩)
          · exact Or.inr (Or.inl ⟨hts, Or.inr rfl⟩)
      · exact List.forall₂_same.mpr fun x _ => Or.inl rfl
  have hcancel : List.Forall₂ (fun u u' => u'.status = u.status ∨ u'.status = .cancelled
      ∨ (u.status = .queued ∧ u'.status = .active))
      q.queue (q.cancelTransfer id now).queue := by
    unfold TransferQueue.cancelTransfer
    split
    · exact List.forall₂_same.mpr fun x _ => Or.inl rfl
    · rename_i t hfind
      have hmut : List.Forall₂ (fun u u' : QItem => u' = u ∨ u'.status = .cancelled)
          q.queue (updateFirst (fun t => t.id == id)
            (fun t => { t with status := .cancelled }) q.queue) :=
        forall2_updateFirst (fun u => Or.inl rfl) (fun u _ => Or.inr rfl) _
      refine forall2_compose ?_ hmut (processQueue_forall2 ({ q with
        queue := updateFirst (fun t => t.id == id)
          (fun t => { t with status := .cancelled }) q.queue
        activeIds := q.activeIds.filter (fun i => i != id) }) now)
      intro a b c hab hbc
      rcases hab with rfl | hbC
      · rcases hbc with rfl | ⟨hbq, _, rfl⟩
        · exact Or.inl rfl
        · exact Or.inr (Or.inr ⟨hbq, rfl⟩)
      · rcases hbc with rfl | ⟨hbq, _, rfl⟩
        · exact Or.inr (Or.inl hbC)
        · rw [hbC] at hbq; cases hbq
  refine ⟨hpause, hresume, hcancel, ?_, ?_⟩
  · refine hpause.imp ?_
    intro a b hab hterm
    rcases hab with h | ⟨ha, _⟩
    · exact h
    · rcases hterm with h' | h' | h' <;> rw [h'] at ha <;> cases ha
  · refine hresume.imp ?_
    intro a b hab hterm
    rcases hab with h | ⟨ha, _⟩ | ⟨ha, _⟩ <;>
      first
        | exact h
        | (rcases hterm with h' | h' | h' <;> rw [h'] at ha <;> cases ha)

/-- Witness for C3 (amended): the pause and resume immunity parts at the
concrete queue holding one completed item. -/
theorem status_transitions_amended_witness :
    List.Forall₂ (fun u u' =>
        (u.status = .completed ∨ u.status = .error ∨ u.status = .cancelled) →
          u'.status = u.status)
      completedQueue.queue (completedQueue.pauseTransfer 1).queue
    ∧ List.Forall₂ (fun u u' =>
        (u.status = .completed ∨ u.status = .error ∨ u.status = .cancelled) →
          u'.status = u.status)
      completedQueue.queue (completedQueue.resumeTransfer 1 0).queue :=
  ⟨(status_transitions_amended completedQueue 1 0).2.2.2.1,
   (status_transitions_amended completedQueue 1 0).2.2.2.2⟩

/-- Counterexample to claim C8: `pauseTransfer`, `resumeTransfer` and
`cancelTransfer` with a transfer id that does not exist (here id 7 against
a queue whose only item has id 1) silently do nothing — the state is
returned unchanged and no `NotFound` error is raised (the source functions
have no error path at all). -/
theorem unknown_transfer_silent_cex :
    queuedQueue.pauseTransfer 7 = queuedQueue
    ∧ queuedQueue.resumeTransfer 7 0 = queuedQueue
    ∧ queuedQueue.cancelTransfer 7 0 = queuedQueue :=
  ⟨rfl, rfl, rfl⟩

/-- Claim C8 (amended): connection-level operations (`disconnect`,
`listDirectory`, the `downloadFile`/`uploadFile` dispatch) with an unknown
or already-disconnected session id fail with the error `'Connection not
found'`; but the transfer-queue operations `pauseTransfer`,
`resumeTransfer` and `cancelTransfer` with an unknown transfer id silently
leave the queue unchanged instead of raising `NotFound`. -/
theorem notfound_behavior_amended :
    (∀ (cm : ConnectionManager) (cid : String), cm.connections.lookup cid = none →
      cm.disconnect cid = .error "Connection not found"
      ∧ (∀ rp, cm.listDirectory cid rp = .error "Connection not found")
      ∧ cm.downloadMethod cid = .error "Connection not found"
      ∧ cm.uploadMethod cid = .error "Connection not found")
    ∧ (∀ (cm cm' : ConnectionManager) (cid : String), cm.disconnect cid = .ok cm' →
      cm'.connections.lookup cid = none)
    ∧ (∀ (q : TransferQueue) (id : ℕ) (now : ℚ),
        q.queue.find? (fun t => t.id == id) = none →
          q.pauseTransfer id = q ∧ q.resumeTransfer id now = q
          ∧ q.cancelTransfer id now = q) := by
  refine ⟨?_, ?_, ?_⟩
  · intro cm cid h
    refine ⟨?_, fun rp => ?_, ?_, ?_⟩ <;>
      simp [ConnectionManager.disconnect, ConnectionManager.listDirectory,
        ConnectionManager.downloadMethod, ConnectionManager.uploadMethod, h]
  · intro cm cm' cid h
    unfold ConnectionManager.disconnect at h
    cases hc : cm.connections.lookup cid with
    | none => rw [hc] at h; cases h
    | some c =>
      rw [hc] at h
      cases h
      exact lookup_filter_ne cid cm.connections
  · intro q id now h
    refine ⟨?_, ?_, ?_⟩
    · unfold TransferQueue.pauseTransfer
      rw [updateFirst_not_found h]
    · unfold TransferQueue.resumeTransfer
      rw [h]
    · unfold TransferQueue.cancelTransfer
      rw [h]

/-- Witness for C8 (amended) at concrete inputs: an id unknown to the
connection registry and a transfer id absent from the queue. -/
theorem notfound_behavior_amended_witness :
    ftpExample.disconnect "nope" = .error "Connection not found"
    ∧ queuedQueue.pauseTransfer 7 = queuedQueue :=
  ⟨(notfound_behavior_amended.1 ftpExample "nope" rfl).1,
   (notfound_behavior_amended.2.2 queuedQueue 7 0 rfl).1⟩

theorem updateFirst_map_id {p : QItem → Bool} {f : QItem → QItem}
    (hf : ∀ u, (f u).id = u.id) :
    ∀ l : List QItem, (updateFirst p f l).map (fun u => u.id) = l.map (fun u => u.id) := by
  intro l
  induction l with
  | nil => rfl
  | cons a as ih =>
    unfold updateFirst
    by_cases h : p a
    · rw [if_pos h]
      simp [hf a]
    · rw [if_neg h]
      simp only [List.map_cons, ih]

theorem updateFirst_pairwise {p : QItem → Bool} {f : QItem → QItem}
    (hf : ∀ u, (f u).id = u.id) (l : List QItem)
    (h : l.Pairwise (fun a b => a.id < b.id)) :
    (updateFirst p f l).Pairwise (fun a b => a.id < b.id) := by
  have h1 : ((updateFirst p f l).map (fun u => u.id)).Pairwise (· < ·) := by
    rw [updateFirst_map_id hf l]
    exact List.pairwise_map.mpr h
  exact List.pairwise_map.mp h1

theorem updateFirst_mem {p : QItem → Bool} {f : QItem → QItem} :
    ∀ {l : List QItem} {u' : QItem},
      u' ∈ updateFirst p f l → u' ∈ l ∨ ∃ u ∈ l, u' = f u := by
  intro l
  induction l with
  | nil => intro u' h; cases h
  | cons a as ih =>
    intro u' h
    unfold updateFirst at h
    by_cases hp : p a
    · rw [if_pos hp] at h
      cases h with
      | head => exact Or.inr ⟨a, List.mem_cons_self _ _, rfl⟩
      | tail _ h' => exact Or.inl (List.mem_cons_of_mem _ h')
    · rw [if_neg hp] at h
      cases h with
      | head => exact Or.inl (List.mem_cons_self _ _)
      | tail _ h' =>
        rcases ih h' with h1 | ⟨u, hu, rfl⟩
        · exact Or.inl (List.mem_cons_of_mem _ h1)
        · exact Or.inr ⟨u, List.mem_cons_of_mem _ hu, rfl⟩

theorem find?_decomp {p : QItem → Bool} (f : QItem → QItem) :
    ∀ {l : List QItem} {t : QItem}, l.find? p = some t →
      ∃ l₁ l₂, l = l₁ ++ t :: l₂ ∧ updateFirst p f l = l₁ ++ f t :: l₂ := by
  intro l
  induction l with
  | nil => intro t h; cases h
  | cons a as ih =>
    intro t h
    by_cases hp : p a
    · rw [List.find?_cons_of_pos _ hp] at h
      cases h
      refine ⟨[], as, rfl, ?_⟩
      unfold updateFirst
      rw [if_pos hp]
      rfl
    · rw [List.find?_cons_of_neg _ hp] at h
      obtain ⟨l₁, l₂, hl, hl'⟩ := ih h
      refine ⟨a :: l₁, l₂, by rw [hl]; rfl, ?_⟩
      unfold updateFirst
      rw [if_neg hp, hl']
      rfl

theorem find?_id_sorted :
    ∀ {l : List QItem}, l.Pairwise (fun a b => a.id < b.id) → ∀ {t : QItem}, t ∈ l →
      l.find? (fun u => u.id == t.id) = some t := by
  intro l
  induction l with
  | nil => intro _ t h; cases h
  | cons a as ih =>
    intro hp t ht
    rcases List.pairwise_cons.mp hp with ⟨ha, has⟩
    cases ht with
    | head => exact List.find?_cons_of_pos _ (by simp)
    | tail _ h' =>
      have hlt : a.id < t.id := ha t h'
      rw [List.find?_cons_of_neg _ (by simp only [beq_iff_eq]; exact Nat.ne_of_lt hlt)]
      exact ih has h'

theorem numActive_le_activeCount (q : TransferQueue)
    (hsorted : q.queue.Pairwise (fun a b => a.id < b.id))
    (hact : ∀ t ∈ q.queue, t.status = .active → t.id ∈ q.activeIds) :
    q.numActive ≤ q.activeCount := by
  have hqid : (q.queue.map (fun t => t.id)).Nodup :=
    (List.pairwise_map.mpr hsorted).imp (fun h => Nat.ne_of_lt h)
  have hlnd : ((q.queue.filter (fun t => t.status == TStatus.active)).map
      (fun t => t.id)).Nodup :=
    hqid.sublist ((List.filter_sublist _).map _)
  have hsubset : ((q.queue.filter (fun t => t.status == TStatus.active)).map
      (fun t => t.id))
      ⊆ q.activeIds.filter (fun i =>
          match q.queue.find? (fun t => t.id == i) with
          | some t => t.status == TStatus.active
          | none => false) := by
    intro x hx
    obtain ⟨t, ht, rfl⟩ := List.mem_map.mp hx
    have htq : t ∈ q.queue := (List.mem_filter.mp ht).1
    have hta : (t.status == TStatus.active) = true := (List.mem_filter.mp ht).2
    refine List.mem_filter.mpr ⟨hact t htq (by simpa using hta), ?_⟩
    rw [find?_id_sorted hsorted htq]
    exact hta
  have hlen := (List.subperm_of_subset hlnd hsubset).length_le
  simpa [TransferQueue.numActive, TransferQueue.activeCount] using hlen

theorem mem_insertId_self (i : ℕ) (l : List ℕ) : i ∈ insertId i l := by
  unfold insertId
  by_cases h : i ∈ l
  · rwa [if_pos h]
  · rw [if_neg h]
    exact List.mem_cons_self _ _

theorem mem_insertId_of_mem {j : ℕ} {l : List ℕ} (i : ℕ) (h : j ∈ l) : j ∈ insertId i l := by
  unfold insertId
  by_cases hi : i ∈ l
  · rwa [if_pos hi]
  · rw [if_neg hi]
    exact List.mem_cons_of_mem _ h

theorem nodup_insertId {l : List ℕ} (i : ℕ) (h : l.Nodup) : (insertId i l).Nodup := by
  unfold insertId
  by_cases hi : i ∈ l
  · rwa [if_pos hi]
  · rw [if_neg hi]
    exact List.Nodup.cons hi h

theorem lenActive_append_cons (l₁ l₂ : List QItem) (t : QItem) :
    ((l₁ ++ t :: l₂).filter (fun u => u.status == TStatus.active)).length
      = (l₁.filter (fun u => u.status == TStatus.active)).length
        + (if t.status == TStatus.active then 1 else 0)
        + (l₂.filter (fun u => u.status == TStatus.active)).length := by
  rw [List.filter_append, List.filter_cons, List.length_append]
  split <;> (simp; try omega)

theorem lenActive_append_single (l : List QItem) (t : QItem)
    (h : (t.status == TStatus.active) = false) :
    ((l ++ [t]).filter (fun u => u.status == TStatus.active)).length
      = (l.filter (fun u => u.status == TStatus.active)).length := by
  rw [List.filter_append, List.length_append]
  simp [List.filter_cons, h]

theorem update_keep_inv {q : TransferQueue} (h : q.Inv) (id : ℕ) (f : QItem → QItem)
    (hf_id : ∀ u, (f u).id = u.id)
    (hf_act : ∀ u, (f u).status = .active → f u = u) :
    TransferQueue.Inv { q with queue := updateFirst (fun t => t.id == id) f q.queue } := by
  obtain ⟨h1, h2, h3, h4, h5⟩ := h
  cases hfind : q.queue.find? (fun t => t.id == id) with
  | none =>
    rw [show ({ q with queue := updateFirst (fun t => t.id == id) f q.queue } : TransferQueue)
      = q by rw [updateFirst_not_found hfind]]
    exact ⟨h1, h2, h3, h4, h5⟩
  | some t =>
    obtain ⟨l₁, l₂, hl, hl'⟩ := find?_decomp f hfind
    refine ⟨updateFirst_pairwise hf_id _ h1, ?_, ?_, h4, ?_⟩
    · intro u hu
      replace hu : u ∈ updateFirst (fun t => t.id == id) f q.queue := hu
      rcases updateFirst_mem hu with hm | ⟨u0, hu0, rfl⟩
      · exact h2 u hm
      · rw [hf_id u0]
        exact h2 u0 hu0
    · intro u hu hact
      replace hu : u ∈ updateFirst (fun t => t.id == id) f q.queue := hu
      rw [hl'] at hu
      rcases List.mem_append.mp hu with hm | hm
      · exact h3 u (by rw [hl]; exact List.mem_append_left _ hm) hact
      · cases hm with
        | head =>
          have hft := hf_act t hact
          rw [hft]
          refine h3 t (by rw [hl]; exact List.mem_append_right _ (List.mem_cons_self _ _)) ?_
          rw [← hft]
          exact hact
        | tail _ hm' =>
          exact h3 u
            (by rw [hl]; exact List.mem_append_right _ (List.mem_cons_of_mem _ hm')) hact
    · have hcount : ((updateFirst (fun t => t.id == id) f q.queue).filter
          (fun u => u.status == TStatus.active)).length
          ≤ (q.queue.filter (fun u => u.status == TStatus.active)).length := by
        rw [hl']
        conv_rhs => rw [hl]
        rw [lenActive_append_cons, lenActive_append_cons]
        by_cases hft : ((f t).status == TStatus.active) = true
        · have heq := hf_act t (by simpa using hft)
          rw [heq]
        · rw [if_neg hft]
          split <;> omega
      exact le_trans hcount h5

theorem update_erase_inv {q : TransferQueue} (h : q.Inv) (id : ℕ) (f : QItem → QItem)
    (hf_id : ∀ u, (f u).id = u.id)
    (hf_no_active : ∀ u, (f u).status ≠ .active) :
    TransferQueue.Inv { q with queue := updateFirst (fun t => t.id == id) f q.queue
                               activeIds := q.activeIds.filter (fun i => i != id) } := by
  obtain ⟨h1, h2, h3, h4, h5⟩ := h
  cases hfind : q.queue.find? (fun t => t.id == id) with
  | none =>
    refine ⟨?_, ?_, ?_, List.Nodup.filter _ h4, ?_⟩
    · rw [show updateFirst (fun t => t.id == id) f q.queue = q.queue from
        updateFirst_not_found hfind]
      exact h1
    · intro u hu
      replace hu : u ∈ updateFirst (fun t => t.id == id) f q.queue := hu
      rw [updateFirst_not_found hfind] at hu
      exact h2 u hu
    · intro u hu hact
      replace hu : u ∈ updateFirst (fun t => t.id == id) f q.queue := hu
      rw [updateFirst_not_found hfind] at hu
      refine List.mem_filter.mpr ⟨h3 u hu hact, ?_⟩
      have hne := List.find?_eq_none.mp hfind u hu
      simpa using fun hcontra => hne (by simpa using hcontra)
    · have hcount : ((updateFirst (fun t => t.id == id) f q.queue).filter
          (fun u => u.status == TStatus.active)).length
          ≤ (q.queue.filter (fun u => u.status == TStatus.active)).length := by
        rw [updateFirst_not_found hfind]
      exact le_trans hcount h5
  | some t =>
    have htid : t.id = id := by simpa using List.find?_some hfind
    obtain ⟨l₁, l₂, hl, hl'⟩ := find?_decomp f hfind
    have hsplit := List.pairwise_append.mp (by rw [hl] at h1; exact h1)
    refine ⟨updateFirst_pairwise hf_id _ h1, ?_, ?_, List.Nodup.filter _ h4, ?_⟩
    · intro u hu
      replace hu : u ∈ updateFirst (fun t => t.id == id) f q.queue := hu
      rcases updateFirst_mem hu with hm | ⟨u0, hu0, rfl⟩
      · exact h2 u hm
      · rw [hf_id u0]
        exact h2 u0 hu0
    · intro u hu hact
      replace hu : u ∈ updateFirst (fun t => t.id == id) f q.queue := hu
      rw [hl'] at hu
      rcases List.mem_append.mp hu with hm | hm
      · have hmemq : u ∈ q.queue := by rw [hl]; exact List.mem_append_left _ hm
        have hlt : u.id < t.id := hsplit.2.2 u hm t (List.mem_cons_self _ _)
        refine List.mem_filter.mpr ⟨h3 u hmemq hact, ?_⟩
        simp only [bne_iff_ne, ne_eq, decide_eq_true_eq]
        omega
      · cases hm with
        | head => exact absurd hact (hf_no_active t)
        | tail _ hm' =>
          have hmemq : u ∈ q.queue := by
            rw [hl]
            exact List.mem_append_right _ (List.mem_cons_of_mem _ hm')
          have hlt : t.id < u.id := (List.pairwise_cons.mp hsplit.2.1).1 u hm'
          refine List.mem_filter.mpr ⟨h3 u hmemq hact, ?_⟩
          simp only [bne_iff_ne, ne_eq, decide_eq_true_eq]
          omega
    · have hcount : ((updateFirst (fun t => t.id == id) f q.queue).filter
          (fun u => u.status == TStatus.active)).length
          ≤ (q.queue.filter (fun u => u.status == TStatus.active)).length := by
        rw [hl']
        conv_rhs => rw [hl]
        rw [lenActive_append_cons, lenActive_append_cons]
        rw [if_neg (by simpa using hf_no_active t)]
        split <;> omega
      exact le_trans hcount h5

theorem processQueue_inv {q : TransferQueue} (h : q.Inv) (now : ℚ) :
    (q.processQueue now).Inv := by
  obtain ⟨h1, h2, h3, h4, h5⟩ := h
  unfold TransferQueue.processQueue
  split
  · exact ⟨h1, h2, h3, h4, h5⟩
  · split
    · exact ⟨h1, h2, h3, h4, h5⟩
    · split
      · exact ⟨h1, h2, h3, h4, h5⟩
      · rename_i t hfind
        have hcap : ¬ q.maxConcurrent ≤ q.activeCount := by assumption
        have hne := numActive_le_activeCount q h1 h3
        have htq := List.find?_some hfind
        have htqs : t.status = TStatus.queued := by
          simp only [Bool.and_eq_true, beq_iff_eq] at htq
          exact htq.1
        obtain ⟨l₁, l₂, hl, hl'⟩ := find?_decomp
          (fun u => { u with status := TStatus.active, startTime := some now }) hfind
        refine ⟨@updateFirst_pairwise (fun u => u.status == TStatus.queued && !u.isPaused)
          (fun u => { u with status := TStatus.active, startTime := some now })
          (fun u => rfl) q.queue h1, ?_, ?_, nodup_insertId _ h4, ?_⟩
        · intro u hu
          replace hu : u ∈ updateFirst (fun u => u.status == TStatus.queued && !u.isPaused)
              (fun u => { u with status := TStatus.active, startTime := some now })
              q.queue := hu
          rcases updateFirst_mem hu with hm | ⟨u0, hu0, rfl⟩
          · exact h2 u hm
          · exact h2 u0 hu0
        · intro u hu hact
          replace hu : u ∈ updateFirst (fun u => u.status == TStatus.queued && !u.isPaused)
              (fun u => { u with status := TStatus.active, startTime := some now })
              q.queue := hu
          rw [hl'] at hu
          rcases List.mem_append.mp hu with hm | hm
          · exact mem_insertId_of_mem _
              (h3 u (by rw [hl]; exact List.mem_append_left _ hm) hact)
          · cases hm with
            | head => exact mem_insertId_self _ _
            | tail _ hm' =>
              exact mem_insertId_of_mem _ (h3 u
                (by rw [hl]; exact List.mem_append_right _ (List.mem_cons_of_mem _ hm')) hact)
        · have hcount : ((updateFirst (fun u => u.status == TStatus.queued && !u.isPaused)
              (fun u => { u with status := TStatus.active, startTime := some now })
              q.queue).filter (fun u => u.status == TStatus.active)).length
              = (q.queue.filter (fun u => u.status == TStatus.active)).length + 1 := by
            rw [hl']
            conv_rhs => rw [hl]
            rw [lenActive_append_cons, lenActive_append_cons]
            rw [if_pos (by simp), if_neg (by simp [htqs])]
            omega
          have hca : q.activeCount < q.maxConcurrent := Nat.lt_of_not_le hcap
          calc ((updateFirst (fun u => u.status == TStatus.queued && !u.isPaused)
              (fun u => { u with status := TStatus.active, startTime := some now })
              q.queue).filter (fun u => u.status == TStatus.active)).length
              = q.numActive + 1 := hcount
            _ ≤ q.activeCount + 1 := by omega
            _ ≤ q.maxConcurrent := hca

theorem enqueueItem_inv {q : TransferQueue} (h : q.Inv) (d : TransferDesc) :
    (q.enqueueItem d).2.Inv := by
  obtain ⟨h1, h2, h3, h4, h5⟩ := h
  have hq : (q.enqueueItem d).2.queue = q.queue ++ [{ id := q.queueId + 1, desc := d, status := TStatus.queued, progress := 0, speed := 0, startTime := none, err := none, isPaused := false }] := rfl
  refine ⟨?_, ?_, ?_, h4, ?_⟩
  · rw [hq, List.pairwise_append]
    refine ⟨h1, List.pairwise_singleton _ _, ?_⟩
    intro a ha b hb
    rw [List.mem_singleton.mp hb]
    exact Nat.lt_succ_of_le (h2 a ha)
  · intro u hu
    rcases List.mem_append.mp hu with hm | hm
    · exact Nat.le_succ_of_le (h2 u hm)
    · rw [List.mem_singleton.mp hm]
      exact Nat.le_refl _
  · intro u hu hact
    rcases List.mem_append.mp hu with hm | hm
    · exact h3 u hm hact
    · rw [List.mem_singleton.mp hm] at hact
      cases hact
  · exact le_of_eq_of_le (lenActive_append_single q.queue _ rfl) h5

theorem clearCompleted_inv {q : TransferQueue} (h : q.Inv) : q.clearCompleted.Inv := by
  obtain ⟨h1, h2, h3, h4, h5⟩ := h
  refine ⟨List.Pairwise.sublist (List.filter_sublist _) h1, ?_, ?_, h4, ?_⟩
  · intro u hu
    exact h2 u (List.mem_of_mem_filter hu)
  · intro u hu hact
    exact h3 u (List.mem_of_mem_filter hu) hact
  · have hsub : ((q.queue.filter (fun t => t.status != TStatus.completed
        && t.status != TStatus.cancelled && t.status != TStatus.error)).filter
          (fun u => u.status == TStatus.active)).length
        ≤ (q.queue.filter (fun u => u.status == TStatus.active)).length :=
      List.Sublist.length_le (List.Sublist.filter _ (List.filter_sublist _))
    exact le_trans hsub h5

theorem settle_inv {q : TransferQueue} (h : q.Inv) (id : ℕ) (outcome : Option String) :
    (q.settle id outcome).Inv := by
  have h' := update_erase_inv h id (fun t =>
      match outcome with
      | none => { t with status := TStatus.completed, progress := 100 }
      | some msg => { t with status := TStatus.error, err := some msg })
    (fun u => by cases outcome <;> rfl)
    (fun u => by cases outcome <;> simp)
  exact h'

theorem pauseTransfer_inv {q : TransferQueue} (h : q.Inv) (id : ℕ) :
    (q.pauseTransfer id).Inv := by
  have hfid : ∀ u : QItem, ((if u.status == TStatus.active
      then { u with isPaused := true, status := TStatus.paused } else u) : QItem).id = u.id := by
    intro u
    by_cases hs : (u.status == TStatus.active) = true
    · rw [if_pos hs]
    · rw [if_neg hs]
  have hfact : ∀ u : QItem, ((if u.status == TStatus.active
      then { u with isPaused := true, status := TStatus.paused } else u) : QItem).status
      = TStatus.active → (if u.status == TStatus.active
      then { u with isPaused := true, status := TStatus.paused } else u) = u := by
    intro u hu
    by_cases hs : (u.status == TStatus.active) = true
    · rw [if_pos hs] at hu
      simp at hu
    · rw [if_neg hs]
  exact update_keep_inv h id _ hfid hfact

theorem markQueued_inv {q : TransferQueue} (h : q.Inv) (id : ℕ) :
    (q.markQueued id).Inv := by
  have h' := update_keep_inv h id
    (fun t => { t with isPaused := false, status := TStatus.queued })
    (fun u => rfl) (fun u hu => absurd hu (by simp))
  exact h'

theorem cancelTransfer_inv {q : TransferQueue} (h : q.Inv) (id : ℕ) (now : ℚ) :
    (q.cancelTransfer id now).Inv := by
  unfold TransferQueue.cancelTransfer
  split
  · exact h
  · exact processQueue_inv (update_erase_inv h id
      (fun t => { t with status := TStatus.cancelled }) (fun u => rfl)
      (fun u => by simp)) now

theorem resumeTransfer_inv {q : TransferQueue} (h : q.Inv) (id : ℕ) (now : ℚ) :
    (q.resumeTransfer id now).Inv := by
  unfold TransferQueue.resumeTransfer
  split
  · exact h
  · split
    · exact processQueue_inv (markQueued_inv h id) now
    · exact h

theorem applyOp_inv {q : TransferQueue} (h : q.Inv) (op : TransferQueue.QOp) :
    (q.applyOp op).Inv := by
  cases op with
  | add d now => exact processQueue_inv (enqueueItem_inv h d) now
  | pause id => exact pauseTransfer_inv h id
  | resume id now => exact resumeTransfer_inv h id now
  | cancel id now => exact cancelTransfer_inv h id now
  | finish id outcome now => exact processQueue_inv (settle_inv h id outcome) now
  | clear => exact clearCompleted_inv h
  | pass now => exact processQueue_inv h now

theorem applyOps_inv {q : TransferQueue} (h : q.Inv) (ops : List TransferQueue.QOp) :
    (q.applyOps ops).Inv := by
  induction ops generalizing q with
  | nil => exact h
  | cons op rest ih => exact ih (applyOp_inv h op)

theorem processQueue_max (q : TransferQueue) (now : ℚ) :
    (q.processQueue now).maxConcurrent = q.maxConcurrent := by
  unfold TransferQueue.processQueue
  split
  · rfl
  · split
    · rfl
    · split
      · rfl
      · rfl

theorem applyOp_max (q : TransferQueue) (op : TransferQueue.QOp) :
    (q.applyOp op).maxConcurrent = q.maxConcurrent := by
  cases op with
  | add d now => exact processQueue_max _ now
  | pause id => rfl
  | resume id now =>
    show (q.resumeTransfer id now).maxConcurrent = q.maxConcurrent
    unfold TransferQueue.resumeTransfer
    split
    · rfl
    · split
      · exact processQueue_max _ now
      · rfl
  | cancel id now =>
    show (q.cancelTransfer id now).maxConcurrent = q.maxConcurrent
    unfold TransferQueue.cancelTransfer
    split
    · rfl
    · exact processQueue_max _ now
  | finish id outcome now => exact processQueue_max _ now
  | clear => rfl
  | pass now => exact processQueue_max _ now

theorem applyOps_max (q : TransferQueue) (ops : List TransferQueue.QOp) :
    (q.applyOps ops).maxConcurrent = q.maxConcurrent := by
  induction ops generalizing q with
  | nil => rfl
  | cons op rest ih => exact (ih _).trans (applyOp_max q op)

theorem initial_inv (k : ℕ) : (TransferQueue.initial k).Inv :=
  ⟨List.Pairwise.nil, fun t ht => absurd ht (List.not_mem_nil t),
   fun t ht => absurd ht (List.not_mem_nil t), List.nodup_nil, Nat.zero_le k⟩

/-- Claim C2: for any sequence of queue events — `addTransfer` enqueues in
particular, alongside pause/resume/cancel/terminal events and extra
scheduling passes — against a queue whose concurrency bound is
`maxConcurrent = k` (the constructor default is 3), the number of items
whose status is `'active'` never exceeds `k`.  "At every observed
instant" holds because every prefix of an event sequence is itself an
event sequence. -/
theorem active_never_exceeds_bound (k : ℕ) (ops : List TransferQueue.QOp) :
    ((TransferQueue.initial k).applyOps ops).numActive ≤ k := by
  have hinv := applyOps_inv (initial_inv k) ops
  have h5 := hinv.2.2.2.2
  rw [applyOps_max (TransferQueue.initial k) ops] at h5
  exact h5

theorem find?_min_id {p : QItem → Bool} :
    ∀ {l : List QItem}, l.Pairwise (fun a b => a.id < b.id) →
      ∀ {t : QItem}, l.find? p = some t → ∀ u ∈ l, p u = true → t.id ≤ u.id := by
  intro l
  induction l with
  | nil => intro _ t h; cases h
  | cons a as ih =>
    intro hp t hfind u hu hpu
    rcases List.pairwise_cons.mp hp with ⟨ha, has⟩
    by_cases hpa : p a
    · rw [List.find?_cons_of_pos _ hpa] at hfind
      cases hfind
      cases hu with
      | head => exact Nat.le_refl _
      | tail _ hu' => exact Nat.le_of_lt (ha u hu')
    · rw [List.find?_cons_of_neg _ hpa] at hfind
      cases hu with
      | head => rw [hpu] at hpa; exact absurd rfl hpa
      | tail _ hu' => exact ih has hfind u hu' hpu

/-- Claim C6: whenever a scheduling pass starts a transfer (the pass is
not globally paused, capacity is available, and an eligible item exists),
it selects the earliest-enqueued item whose status is `queued` and which
is not paused — the first eligible item in FIFO backlog order, which has
the minimal id among eligible items — marks it `active`, records its
start time, and registers it in `activeTransfers`; and a scheduling pass
is triggered after every enqueue (`addTransfer`), every terminal
transition (`finishTransfer`), and every resume of a paused item
(`resumeTransfer`). -/
theorem scheduling_pass_fifo (q : TransferQueue) (now : ℚ)
    (hsorted : q.queue.Pairwise (fun a b => a.id < b.id))
    (hp : q.isPaused = false) (hcap : q.activeCount < q.maxConcurrent)
    (t : QItem)
    (hfind : q.queue.find? (fun u => u.status == .queued && !u.isPaused) = some t) :
    (t.status = .queued ∧ t.isPaused = false)
    ∧ (∀ u ∈ q.queue, u.status = .queued → u.isPaused = false → t.id ≤ u.id)
    ∧ q.processQueue now = { q with
        queue := updateFirst (fun u => u.status == .queued && !u.isPaused)
          (fun u => { u with status := .active, startTime := some now }) q.queue
        activeIds := insertId t.id q.activeIds }
    ∧ List.Forall₂ (fun u u' => u' = u
        ∨ (u = t ∧ u' = { t with status := .active, startTime := some now }))
        q.queue (q.processQueue now).queue
    ∧ (∀ d, (q.addTransfer d now).2 = (q.enqueueItem d).2.processQueue now)
    ∧ (∀ id outcome, q.finishTransfer id outcome now = (q.settle id outcome).processQueue now)
    ∧ (∀ id t', q.queue.find? (fun u => u.id == id) = some t' → t'.status = .paused →
        q.resumeTransfer id now = (q.markQueued id).processQueue now) := by
  have htq := List.find?_some hfind
  simp only [Bool.and_eq_true, beq_iff_eq, Bool.not_eq_true'] at htq
  have heq : q.processQueue now = { q with
      queue := updateFirst (fun u => u.status == TStatus.queued && !u.isPaused)
        (fun u => { u with status := TStatus.active, startTime := some now }) q.queue
      activeIds := insertId t.id q.activeIds } := by
    unfold TransferQueue.processQueue
    rw [if_neg (by simp [hp]), if_neg (Nat.not_le.mpr hcap), hfind]
  refine ⟨⟨htq.1, htq.2⟩, ?_, heq, ?_, fun d => rfl, fun id outcome => rfl, ?_⟩
  · intro u hu hq hup
    exact find?_min_id hsorted hfind u hu (by simp [hq, hup])
  · rw [heq]
    exact @updateFirst_found (fun u => u.status == TStatus.queued && !u.isPaused)
      (fun u => { u with status := TStatus.active, startTime := some now }) q.queue t hfind
  · intro id t' hfind' hps
    unfold TransferQueue.resumeTransfer
    rw [hfind']
    show (if (t'.status == TStatus.paused) = true
        then (q.markQueued id).processQueue now else q)
      = (q.markQueued id).processQueue now
    rw [if_pos (by simp [hps])]

/-- Witness for C6: the pass over a queue with one queued item selects it,
marks it active, records start time 5 and registers it. -/
theorem scheduling_pass_fifo_witness :
    (queuedItem.status = TStatus.queued ∧ queuedItem.isPaused = false)
    ∧ queuedQueue.processQueue 5 = { queuedQueue with
        queue := updateFirst (fun u => u.status == TStatus.queued && !u.isPaused)
          (fun u => { u with status := TStatus.active, startTime := some 5 })
          queuedQueue.queue
        activeIds := insertId queuedItem.id queuedQueue.activeIds } :=
  ⟨(scheduling_pass_fifo queuedQueue 5 (by simp [queuedQueue]) rfl (by decide) queuedItem
      rfl).1,
   (scheduling_pass_fifo queuedQueue 5 (by simp [queuedQueue]) rfl (by decide) queuedItem
      rfl).2.2.1⟩
